import Mathlib

/-!
# Verification of the `svc` SVG-to-CSS converter

A shallow embedding of `src/lib/svc.js` (the `SVCApp` object) together with a
model of its external collaborators (the `xml2js` parser/builder, the
`xml2js-xpath` lookup, node's `path.extname` and `Buffer`-based base64
encoding), and theorems checking the natural-language specification against it.

Conventions:

* A parsed XML document (the result of `xml2js.Parser.parseString`) is a tree
  of elements carrying attribute lists and ordered children; the parser drops
  XML comments, so the tree has no comment nodes.
* JavaScript values that can be either a string or the number `0` (as produced
  by expressions like `attr.width ? attr.width : 0`) are modelled by `JsVal`.
* A thrown JavaScript exception is modelled by `Except.error` with a `JsError`;
  code after the throw never runs, and in `SVCApp.process` the output file is
  written only on the `Except.ok` path.
-/

set_option maxRecDepth 16384

/-- A node of a parsed XML document, as produced by the `xml2js` parser:
elements carry a name, an ordered attribute list (the `$` object; empty list
means the `$` key is absent) and ordered children; character data is a text
node.  The parser drops comments, so there is no comment constructor. -/
inductive XNode where
  | elem (name : String) (attrs : List (String × String)) (children : List XNode)
  | text (s : String)
deriving Repr

/-- JavaScript object property lookup on the attribute object `svgTag.$`:
`attrs.key` is the first binding of `key`, or `undefined` (`none`). -/
def lookupA : List (String × String) → String → Option String
  | [], _ => none
  | (k, v) :: rest, key => if k = key then some v else lookupA rest key

/-- A JavaScript value that is either a string or a number, as produced by
`attr.width ? attr.width : 0` (string attribute value, or the number `0`). -/
inductive JsVal where
  | s (v : String)
  | n (v : Nat)
deriving DecidableEq, Repr

/-- JavaScript falsiness on a `JsVal`: the empty string and the number 0 are
falsy, every non-empty string (including "0") is truthy. -/
def jsFalsy : JsVal → Bool
  | .s v => v = ""
  | .n k => k = 0

/-- Template-literal rendering `${v}` of a `JsVal`. -/
def jsValStr : JsVal → String
  | .s v => v
  | .n k => toString k

/-- A thrown JavaScript exception. `typeError` stands for the `TypeError`
raised when a property of `null` is read (for example `attr.width` in
`getDimensions` when the `svg` element has no attributes, or the builder and
xpath dereferencing the `null` returned by `readXmlFile` on malformed XML). -/
inductive JsError where
  | typeError
deriving DecidableEq, Repr

mutual

/-- First element named `svg` in document order, as found by
`xpath.find(dom, '//svg')[0]` (depth-first, root included). -/
def findSvg : XNode → Option XNode
  | .text _ => none
  | .elem name attrs children =>
      if name = "svg" then some (.elem name attrs children)
      else findSvgList children

/-- `findSvg` over an ordered child list. -/
def findSvgList : List XNode → Option XNode
  | [] => none
  | x :: xs =>
      match findSvg x with
      | some r => some r
      | none => findSvgList xs

end

/-- Attribute list of a node (the `$` object; `[]` when absent). -/
def XNode.attrsOf : XNode → List (String × String)
  | .elem _ attrs _ => attrs
  | .text _ => []

/-- The JavaScript value of `attr.k ? attr.k : 0` : the attribute's string
value when present and non-empty (JS truthy), else the number `0`. -/
def jsAttr (attrs : List (String × String)) (k : String) : JsVal :=
  match lookupA attrs k with
  | some v => if v = "" then .n 0 else .s v
  | none => .n 0

/-- JavaScript `String.prototype.split(sep)` for a single-character separator:
consecutive separators yield empty tokens, and the result is never empty
(`"".split(sep)` is `[""]`). -/
def jsSplitChar (sep : Char) : List Char → List (List Char)
  | [] => [[]]
  | c :: rest =>
      if c = sep then [] :: jsSplitChar sep rest
      else
        match jsSplitChar sep rest with
        | t :: ts => (c :: t) :: ts
        | [] => [[c]]

/-- The `viewBox` fallback of `SVCApp.getDimensions` (svc.js lines 222-236):
take `attr.viewBox ? attr.viewBox : ''`; if empty return `null`; split on
single spaces (`viewBox.split(' ')`); if fewer than 4 tokens return `null`;
else tokens 2 and 3 become width and height. -/
def viewBoxDims (attrs : List (String × String)) : Option (JsVal × JsVal) :=
  let viewBox : String :=
    match lookupA attrs "viewBox" with
    | some v => if v = "" then "" else v
    | none => ""
  if viewBox = "" then none
  else
    let parts := (jsSplitChar ' ' viewBox.data).map String.mk
    if parts.length < 4 then none
    else some (.s (parts.getD 2 ""), .s (parts.getD 3 ""))

/-- Body of `SVCApp.getDimensions` after the xpath lookup (svc.js lines
217-241), as a function of the found element's attribute list.  When the
element has no attributes, `svgTag.$` is absent, so
`const attr = svgTag && svgTag.$ ? svgTag.$ : null;` yields `null` and the
subsequent `attr.width` read throws a `TypeError` (`Except.error`).  Width and
height are the JS-truthy attribute values or the number `0`; only when both
are falsy does the code fall through to the `viewBox` attribute. -/
def dimsOfAttrs (attrs : List (String × String)) : Except JsError (Option (JsVal × JsVal)) :=
  if attrs.isEmpty then
    .error .typeError
  else
    let width := jsAttr attrs "width"
    let height := jsAttr attrs "height"
    if jsFalsy width ∧ jsFalsy height then
      .ok (viewBoxDims attrs)
    else
      .ok (some (width, height))

/-- `SVCApp.getDimensions` (svc.js lines 208-242): find the first `svg`
element via `xpath.find(dom, '//svg')`; return `null` when there is none,
else extract dimensions from its attributes via `dimsOfAttrs`. -/
def getDimensions (dom : XNode) : Except JsError (Option (JsVal × JsVal)) :=
  match findSvg dom with
  | none => .ok none
  | some svgTag => dimsOfAttrs svgTag.attrsOf

/-- Loop state of node's `path.posix.extname`: indices are `Int` because the
original uses `-1` as a sentinel. -/
structure ExtState where
  startDot : Int
  startPart : Nat
  endIdx : Int
  matchedSlash : Bool
  preDotState : Int
deriving Repr

/-- The scanning loop of node's `path.posix.extname`, iterating indices from
`i-1` down to `0` over the characters of the path (a faithful port of the
`for (let i = path.length - 1; i >= 0; --i)` loop, including the early
`break` on a non-trailing `/`). -/
def extLoop (s : List Char) : Nat → ExtState → ExtState
  | 0, st => st
  | i + 1, st =>
      let c := s.getD i ' '
      if c = '/' then
        if ¬ st.matchedSlash then { st with startPart := i + 1 }
        else extLoop s i st
      else
        let st1 := if st.endIdx = -1 then { st with matchedSlash := false, endIdx := (i : Int) + 1 } else st
        let st2 :=
          if c = '.' then
            if st1.startDot = -1 then { st1 with startDot := (i : Int) }
            else if st1.preDotState ≠ 1 then { st1 with preDotState := 1 }
            else st1
          else if st1.startDot ≠ -1 then { st1 with preDotState := -1 }
          else st1
        extLoop s i st2

/-- Node's `path.extname(path)` (posix): the extension of the final path
segment, from its last `.` to the end; `""` when the basename has no `.`, when
its only `.` is the leading character (dotfiles), or for `".."`. -/
def extname (s : String) : String :=
  let l := s.data
  let st := extLoop l l.length ⟨-1, 0, -1, true, 0⟩
  if st.startDot = -1 ∨ st.endIdx = -1 ∨ st.preDotState = 0 ∨
      (st.preDotState = 1 ∧ st.startDot = st.endIdx - 1 ∧ st.startDot = (st.startPart : Int) + 1) then
    ""
  else
    String.mk ((l.drop st.startDot.toNat).take (st.endIdx.toNat - st.startDot.toNat))

/-- `SVCApp.filterFiles` (svc.js lines 125-135): keep, in order, the file
names whose `path.extname` equals `ext` exactly (case-sensitive `===`). -/
def filterFiles : List String → String → List String
  | [], _ => []
  | f :: rest, ext =>
      if extname f = ext then f :: filterFiles rest ext
      else filterFiles rest ext

/-- `inputFiles[i].split('.').shift()` (svc.js line 87): the file name's
segment before the first `.` (the whole name when it has no dot). -/
def fileBase (name : String) : String :=
  String.mk ((jsSplitChar '.' name.data).headD [])

/-- The selector name (`blockName`, svc.js lines 88-94): the base name, with
the configured prefix prepended when `cssPrefix.length` is non-zero. -/
def blockNameOf (cssPre : String) (name : String) : String :=
  if cssPre.length ≠ 0 then cssPre ++ fileBase name else fileBase name

deriving instance DecidableEq for Except

/-- Counterexample input for claim C2: `<svg width="0" height="0" viewBox="0 0 7 9">`. -/
def C2cex : XNode := .elem "svg" [("width", "0"), ("height", "0"), ("viewBox", "0 0 7 9")] []

/-- Witness input for the amended C2: `<svg width="10" height="20">`. -/
def C2wdoc : XNode := .elem "svg" [("width", "10"), ("height", "20")] []

/-- A document with no `svg` element anywhere. -/
def C4noSvg : XNode := .elem "rect" [] [.text "x", .elem "g" [("id", "a")] []]

/-- A document whose first (and only) `svg` element carries no attributes. -/
def C4emptySvg : XNode := .elem "svg" [] []

/-- Witness input for the amended C5: `<svg viewBox="0 0 100 50">`. -/
def C5wdoc : XNode := .elem "svg" [("viewBox", "0 0 100 50")] []

/-- The XML declaration emitted by `xml2js.Builder` with its default options
(`version "1.0"`, `encoding "UTF-8"`, `standalone "yes"`); with
`renderOpts: \x7b pretty: false \x7d` it is immediately followed by the root
element on the same line. -/
def headerChars : List Char :=
  "<?xml version=\"1.0\" encoding=\"UTF-8\" standalone=\"yes\"?>".data

/-- xmlbuilder's attribute-value escaping: `&` to `&amp;`, `<` to `&lt;`,
`"` to `&quot;`.  The original applies three sequential global replaces in
this order; since no replacement string contains a character handled by a
later pass, that equals this simultaneous per-character expansion. -/
def attEscape (l : List Char) : List Char :=
  l.flatMap (fun c =>
    if c = '&' then "&amp;".data
    else if c = '<' then "&lt;".data
    else if c = '"' then "&quot;".data
    else [c])

/-- xml2js's `requiresCDATA` (builder with `cdata: true`): text is wrapped in
a CDATA section iff it contains `&`, `<` or `>`; otherwise it is emitted
verbatim (its escaping would be the identity). -/
def needsCDATA (s : String) : Bool :=
  s.data.any (fun c => c = '&' || c = '<' || c = '>')

/-- xml2js's `escapeCDATA`: every occurrence of `]]>` inside CDATA content is
replaced by `]]]]><![CDATA[>` (a global left-to-right replace; scanning
resumes after the match, so the inserted text is not rescanned). -/
def escCDATA : List Char → List Char
  | ']' :: ']' :: '>' :: rest => "]]]]><![CDATA[>".data ++ escCDATA rest
  | c :: rest => c :: escCDATA rest
  | [] => []

/-- Attribute rendering: ` key="escaped value"` for each attribute, in
order. -/
def renderAttrs : List (String × String) → List Char
  | [] => []
  | (k, v) :: rest =>
      ' ' :: (k.data ++ ('=' :: '"' :: (attEscape v.data ++ ('"' :: renderAttrs rest))))

mutual

/-- Serialization of one node by `xml2js.Builder` with
`renderOpts: \x7b pretty: false \x7d` and `cdata: true`: elements render as
`<name attrs/>` when childless and `<name attrs>children</name>` otherwise;
text renders verbatim, or CDATA-wrapped when it needs escaping. -/
def renderNode : XNode → List Char
  | .elem name attrs children =>
      if children.isEmpty then
        '<' :: (name.data ++ (renderAttrs attrs ++ ['/', '>']))
      else
        '<' :: (name.data ++ (renderAttrs attrs ++
          ('>' :: (renderList children ++ ('<' :: '/' :: (name.data ++ ['>']))))))
  | .text s =>
      if needsCDATA s then "<![CDATA[".data ++ (escCDATA s.data ++ "]]>".data)
      else s.data

/-- Serialization of an ordered child list. -/
def renderList : List XNode → List Char
  | [] => []
  | x :: xs => renderNode x ++ renderList xs

end

/-- `builder.buildObject(doc)` (svc.js lines 166-171): the XML declaration
followed by the serialized root element, all on one line. -/
def serializeChars (doc : XNode) : List Char :=
  headerChars ++ renderNode doc

/-- Scan for the closing `-->` of a comment; on success return what follows
it (the lazy `[\s\S]*?` of the comment regex stops at the first `-->`). -/
def afterCloseComment : List Char → Option (List Char)
  | [] => none
  | c :: rest =>
      if c = '-' ∧ rest.take 2 = ['-', '>'] then some (rest.drop 2)
      else afterCloseComment rest

/-- The global replace `content.replace(/<!--[\s\S]*?-->/g, '')` (svc.js line
177), with explicit fuel so that the recursion is structural: repeatedly,
from the leftmost `<!--`, delete through the first following `-->`; a `<!--`
with no later `-->` matches nothing (and then no later comment can close
either, so the rest is left unchanged).  Every step consumes at least one
character of the scanned text, so fuel equal to its length is sufficient. -/
def stripCommentsFuel : Nat → List Char → List Char
  | _, [] => []
  | 0, l => l
  | fuel + 1, c :: rest =>
      if c = '<' ∧ rest.take 3 = ['!', '-', '-'] then
        match afterCloseComment (rest.drop 3) with
        | some r2 => stripCommentsFuel fuel r2
        | none => c :: rest
      else c :: stripCommentsFuel fuel rest

/-- The comment-stripping replace on a full string's characters. -/
def stripComments (l : List Char) : List Char :=
  stripCommentsFuel l.length l

/-- The global replace `.replace(/(\n|\r)/gm, '')` (svc.js line 179): remove
every newline and carriage-return character. -/
def stripNewlines (l : List Char) : List Char :=
  l.filter (fun c => c ≠ '\n' && c ≠ '\r')

/-- The global replace `.replace(/(\t\t|\t)/gm, ' ')` (svc.js line 181):
scanning left to right, two consecutive tabs (preferred) or a single tab
become one space. -/
def collapseTabs : List Char → List Char
  | [] => []
  | [c] => if c = '\t' then [' '] else [c]
  | c1 :: c2 :: rest =>
      if c1 = '\t' then
        if c2 = '\t' then ' ' :: collapseTabs rest
        else ' ' :: collapseTabs (c2 :: rest)
      else c1 :: collapseTabs (c2 :: rest)

/-- `SVCApp.cleanUpInputFile` (svc.js lines 165-183) on character lists:
serialize the document on one line, then strip comments, remove newlines,
and collapse tab runs. -/
def cleanUpChars (doc : XNode) : List Char :=
  collapseTabs (stripNewlines (stripComments (serializeChars doc)))

/-- `SVCApp.cleanUpInputFile` as a string. -/
def cleanUpInputFile (doc : XNode) : String :=
  String.mk (cleanUpChars doc)

/-- UTF-8 encoding of one character (what `Buffer.from(content)` does to each
code point). -/
def utf8Bytes (c : Char) : List Nat :=
  let n := c.toNat
  if n < 128 then [n]
  else if n < 2048 then [192 + n / 64, 128 + n % 64]
  else if n < 65536 then [224 + n / 4096, 128 + n / 64 % 64, 128 + n % 64]
  else [240 + n / 262144, 128 + n / 4096 % 64, 128 + n / 64 % 64, 128 + n % 64]

/-- The UTF-8 bytes of a string (`Buffer.from(content)`). -/
def strBytes (s : String) : List Nat :=
  s.data.flatMap utf8Bytes

/-- The standard base64 alphabet. -/
def b64Alphabet : List Char :=
  "ABCDEFGHIJKLMNOPQRSTUVWXYZabcdefghijklmnopqrstuvwxyz0123456789+/".data

/-- The base64 digit for a 6-bit value. -/
def b64Char (n : Nat) : Char :=
  b64Alphabet.getD n 'A'

/-- Standard base64 of a byte list, three bytes to four digits, with `=`
padding (`buffer.toString('base64')`). -/
def b64Chunks : List Nat → List Char
  | [] => []
  | [a] => [b64Char (a / 4), b64Char (a % 4 * 16), '=', '=']
  | [a, b] => [b64Char (a / 4), b64Char (a % 4 * 16 + b / 16), b64Char (b % 16 * 4), '=']
  | a :: b :: c :: rest =>
      b64Char (a / 4) :: b64Char (a % 4 * 16 + b / 16) ::
        b64Char (b % 16 * 4 + c / 64) :: b64Char (c % 64) :: b64Chunks rest

/-- `Buffer.from(content).toString('base64')` (svc.js line 196). -/
def b64encode (content : String) : String :=
  String.mk (b64Chunks (strBytes content))

/-- `SVCApp.makeCSSBlock` (svc.js lines 193-201): the array-join template
`['.', name, ' \x7b\n', '    background-image: url(data:image/svg+xml;base64,',
encoded, ');\n', '\x7d\n'].join('')`. -/
def makeCSSBlock (name content : String) : String :=
  String.join [".", name, " \x7b\n",
    "    background-image: url(data:image/svg+xml;base64,", b64encode content, ");\n", "\x7d\n"]

/-- The two SCSS variable lines pushed for a file's dimensions (svc.js lines
102-103): `$name-width: w;` and `$name-height: h;` with template-literal
rendering of the JS values. -/
def dimLines (blockName : String) (dim : JsVal × JsVal) : List String :=
  ["$" ++ blockName ++ "-width: " ++ jsValStr dim.1 ++ ";",
   "$" ++ blockName ++ "-height: " ++ jsValStr dim.2 ++ ";"]

/-- The enclosed configuration of `SVCApp` that `process` reads: the selector
prefix (`cssPrefix`) and the `--write-dimensions` flag. -/
structure SvcConfig where
  cssPre : String
  writeDims : Bool

/-- One iteration of the `process` loop (svc.js lines 85-110) for a file
name and the result of `readXmlFile` on it (`none` models the `null`
returned when the XML is malformed, svc.js lines 143-157).  On a `null` DOM
the iteration throws: with `write-dimensions` on, `getDimensions(null)`
dereferences null inside the xpath lookup, and in any case
`builder.buildObject(null)` in `cleanUpInputFile` throws a `TypeError`
(`Object.keys(null)`), so the iteration is `Except.error` either way and its
blocks are never pushed. -/
def processFile (cfg : SvcConfig) (name : String) (dom : Option XNode) :
    Except JsError (List String) :=
  let blockName := blockNameOf cfg.cssPre name
  match dom with
  | none => .error .typeError
  | some doc =>
      if cfg.writeDims then
        match getDimensions doc with
        | .error e => .error e
        | .ok dimOpt =>
            let dims := match dimOpt with
              | some d => dimLines blockName d
              | none => []
            .ok (dims ++ [makeCSSBlock blockName (cleanUpInputFile doc)])
      else
        .ok [makeCSSBlock blockName (cleanUpInputFile doc)]

/-- The `process` loop over the filtered file list, accumulating the pushed
output blocks; the first thrown exception aborts the remaining iterations
(no per-file recovery). -/
def processAll (cfg : SvcConfig) (readDom : String → Option XNode) :
    List String → Except JsError (List String)
  | [] => .ok []
  | name :: rest =>
      match processFile cfg name (readDom name) with
      | .error e => .error e
      | .ok blocks =>
          match processAll cfg readDom rest with
          | .error e => .error e
          | .ok more => .ok (blocks ++ more)

/-- `SVCApp.process` (svc.js lines 76-118): filter the candidate names to
`.svg` (an empty result only logs `No input files found!` and continues), run
the per-file loop, and on normal completion write `output.join('\n')` to the
destination.  `Except.ok text` is the content written to the output file;
`Except.error` means the run aborted before `fs.writeFile` was reached.
`readDom` stands for `readXmlFile` at `path.join(srcFolder, name)`. -/
def processFiles (cfg : SvcConfig) (readDom : String → Option XNode)
    (inputFiles : List String) : Except JsError String :=
  match processAll cfg readDom (filterFiles inputFiles ".svg") with
  | .error e => .error e
  | .ok blocks => .ok (String.intercalate "\n" blocks)

/-- The xml2js parse of `<svg width="10" height="10"><rect/></svg>` (the
content of `square.svg` in the end-to-end example). -/
def squareDoc : XNode :=
  .elem "svg" [("width", "10"), ("height", "10")] [.elem "rect" [] []]

/-- The source directory for the end-to-end example: one file `square.svg`
holding the document above; reading anything else fails to parse. -/
def squareRead : String → Option XNode :=
  fun name => if name = "square.svg" then some squareDoc else none

/-- Whether a character list ends with a tab (used to state run-maximality
on the left). -/
def lastIsTab : List Char → Bool
  | [] => false
  | [c] => c = '\t'
  | _ :: rest => lastIsTab rest

/-- Whether a character list starts with a tab (used to state run-maximality
on the right). -/
def headIsTab : List Char → Bool
  | [] => false
  | c :: _ => c = '\t'

/-- Witness document for C10: `<svg>a\t\t\tb</svg>` (a run of three tabs). -/
def C10wdoc : XNode := .elem "svg" [] [.text "a\t\t\tb"]

/-- The serialized text before the three-tab run. -/
def C10wa : List Char :=
  "<?xml version=\"1.0\" encoding=\"UTF-8\" standalone=\"yes\"?><svg>a".data

/-- The serialized text after the three-tab run. -/
def C10wb : List Char := "b</svg>".data

/-- Scanner for "comment-proof" text: every `<` is immediately followed
either by `![` (a CDATA opener) or by a character that is not `!` and not a
newline (so `<!--` cannot occur, and removing newlines cannot change the
character following a `<`).  The builder's output satisfies this for
well-formed documents whose text content has no `<`. -/
def ltOkB : List Char → Bool
  | [] => true
  | c :: rest =>
      if c = '<' then
        match rest with
        | [] => false
        | d :: rest2 =>
            if d = '!' then
              match rest2 with
              | [] => false
              | e :: rest3 => if e = '[' then ltOkB rest3 else false
            else if d = '\n' then false
            else if d = '\r' then false
            else ltOkB (d :: rest2)
      else ltOkB rest
termination_by l => l.length
decreasing_by all_goals simp_arith

/-- Scanner for an occurrence of the comment opener `<!--` anywhere in the
text ("contains no XML comments" is implied by this scanner returning
`false`). -/
def hasOpenComment : List Char → Bool
  | [] => false
  | c :: rest =>
      if c = '<' ∧ rest.take 3 = ['!', '-', '-'] then true
      else hasOpenComment rest

/-- Scanner for an occurrence of the comment closer `-->`. -/
def hasCloseSeq : List Char → Bool
  | [] => false
  | c :: rest =>
      if c = '-' ∧ rest.take 2 = ['-', '>'] then true
      else hasCloseSeq rest

/-- Scanner for a full XML comment `<!-- ... -->`: a `<!--` with a `-->`
somewhere after it.  (Since the text after the first `<!--` either contains a
`-->` or contains none at all, checking the first opener suffices.) -/
def containsComment : List Char → Bool
  | [] => false
  | c :: rest =>
      if c = '<' ∧ rest.take 3 = ['!', '-', '-'] then hasCloseSeq (rest.drop 3)
      else containsComment rest

/-- A plausible XML name as the parser produces: non-empty and without the
characters `<`, `!`, or line breaks (real XML names are much more
restricted; only these exclusions are needed below). -/
def nameOk (s : String) : Bool :=
  (s ≠ "") && s.data.all (fun c => c ≠ '<' && c ≠ '!' && c ≠ '\n' && c ≠ '\r')

mutual

/-- Well-formedness of a parsed node for the comment-freedom argument:
element and attribute names are XML-name-like, and text content carries no
`<` character. -/
def wfNode : XNode → Bool
  | .elem name attrs children =>
      nameOk name && attrs.all (fun kv => nameOk kv.1) && wfList children
  | .text s => s.data.all (fun c => c ≠ '<')

/-- Well-formedness of a child list. -/
def wfList : List XNode → Bool
  | [] => true
  | x :: xs => wfNode x && wfList xs

end

/-- Counterexample input for claim C6: an svg whose text content is
`<!-<!-- -->- x -->` (written escaped in the source file and unescaped by the
parser); the builder emits it verbatim inside CDATA, and the one-pass comment
replace turns `<!-<!-- -->- x -->` into the full comment `<!-- x -->`. -/
def C6cex : XNode := .elem "svg" [] [.text "<!-<!-- -->- x -->"]

/-- Witness document for the amended C6: `<svg>a\t\tb</svg>`. -/
def C6wdoc : XNode := .elem "svg" [] [.text "a\t\tb"]

/-- The serialized text before the two-tab run of `C6wdoc`. -/
def C6wa : List Char :=
  "<?xml version=\"1.0\" encoding=\"UTF-8\" standalone=\"yes\"?><svg>a".data

/-- The serialized text after the two-tab run of `C6wdoc`. -/
def C6wb : List Char := "b</svg>".data

example : getDimensions (.elem "svg" [("width", "10"), ("height", "20")] []) =
    .ok (some (.s "10", .s "20")) := rfl

example : getDimensions (.elem "svg" [("viewBox", "0 0 100 50")] []) =
    .ok (some (.s "100", .s "50")) := rfl

example : getDimensions (.elem "svg" [] []) = .error .typeError := rfl

example : getDimensions (.elem "rect" [] []) = .ok none := rfl

example : getDimensions (.elem "svg" [("width", "0"), ("height", "0"), ("viewBox", "0 0 7 9")] []) =
    .ok (some (.s "0", .s "0")) := rfl

example : extname "a.svg" = ".svg" := rfl

example : extname "a.svg.txt" = ".txt" := rfl

example : extname "a.SVG" = ".SVG" := rfl

example : extname ".svg" = "" := rfl

example : extname "a." = "." := rfl

example : extname ".." = "" := rfl

example : extname "dir/a.svg" = ".svg" := rfl

example : extname "square.svg" = ".svg" := rfl

example : filterFiles ["a.svg", "a.svg.txt", "a.SVG", "b.svg", ".svg"] ".svg" = ["a.svg", "b.svg"] := rfl

example : fileBase "icon.min.svg" = "icon" := rfl

example : blockNameOf "ui-" "icon.min.svg" = "ui-icon" := rfl

example : blockNameOf "" "square.svg" = "square" := rfl

theorem getDimensions_of_findSvg (doc svgTag : XNode) (hf : findSvg doc = some svgTag) :
    getDimensions doc = dimsOfAttrs svgTag.attrsOf := by
  simp [getDimensions, hf]

theorem isEmpty_false_of_ne_nil {α : Type} {l : List α} (h : l ≠ []) : l.isEmpty = false := by
  cases l with
  | nil => exact absurd rfl h
  | cons a as => rfl

/-- C2 counterexample: on `<svg width="0" height="0" viewBox="0 0 7 9">` the
claim predicts that the `"0"` values are treated as absent and extraction
falls through to the `viewBox` (yielding `("7", "9")`) or to none; the code
instead returns the `"0"` values verbatim, because the JavaScript string
`"0"` is truthy. -/
theorem C2_zero_not_absent_counterexample :
    getDimensions C2cex = .ok (some (.s "0", .s "0")) ∧
    getDimensions C2cex ≠ .ok (some (.s "7", .s "9")) ∧
    getDimensions C2cex ≠ .ok none := by
  refine ⟨rfl, by decide, by decide⟩

/-- C2 (amended): when the first `svg` element carries attributes, the
extractor returns the `width`/`height` attribute values verbatim whenever both
are present and non-empty (including the non-empty, hence truthy, string
`"0"`); a width or height that is missing or the empty string becomes the
falsy number `0`, and extraction falls through to the `viewBox` attribute only
when *both* are falsy; when at least one is truthy the current pair is
returned as-is without consulting `viewBox`. -/
theorem C2_dimension_extraction_amended (doc svgTag : XNode)
    (hf : findSvg doc = some svgTag) (hne : svgTag.attrsOf ≠ []) :
    (∀ w h, lookupA svgTag.attrsOf "width" = some w → w ≠ "" →
        lookupA svgTag.attrsOf "height" = some h → h ≠ "" →
        getDimensions doc = .ok (some (.s w, .s h))) ∧
    (jsFalsy (jsAttr svgTag.attrsOf "width") = true →
        jsFalsy (jsAttr svgTag.attrsOf "height") = true →
        getDimensions doc = .ok (viewBoxDims svgTag.attrsOf)) ∧
    (jsFalsy (jsAttr svgTag.attrsOf "width") = false ∨
        jsFalsy (jsAttr svgTag.attrsOf "height") = false →
        getDimensions doc = .ok (some (jsAttr svgTag.attrsOf "width", jsAttr svgTag.attrsOf "height"))) := by
  rw [getDimensions_of_findSvg doc svgTag hf]
  have hemp := isEmpty_false_of_ne_nil hne
  refine ⟨?_, ?_, ?_⟩
  · intro w h hw hw0 hh hh0
    simp [dimsOfAttrs, hemp, jsAttr, hw, hh, hw0, hh0, jsFalsy]
  · intro h1 h2
    simp [dimsOfAttrs, hemp, h1, h2]
  · intro h
    rcases h with h | h <;> simp [dimsOfAttrs, hemp, h]

theorem C2_dimension_extraction_amended_witness :
    getDimensions C2wdoc = .ok (some (.s "10", .s "20")) :=
  (C2_dimension_extraction_amended C2wdoc C2wdoc rfl (by decide)).1
    "10" "20" rfl (by decide) rfl (by decide)

/-- C4: with no `svg` element the extractor returns none, as claimed; but for
an `svg` element with no attributes the code does *not* return none: `attr`
is `null` and `attr.width` throws a `TypeError` (a bug — the
`svgTag && svgTag.$ ? svgTag.$ : null` guard shows the intent to handle the
missing-attributes case, and the function is documented to return
`{object|null}`). -/
theorem C4_no_svg_and_no_attributes :
    getDimensions C4noSvg = .ok none ∧
    getDimensions C4emptySvg = .error .typeError :=
  ⟨rfl, rfl⟩

/-- C5 counterexample: an `svg` element with no attributes "lacks usable
width/height attributes" and has no `viewBox`, so the claim predicts that the
extractor returns none; the code instead throws a `TypeError`. -/
theorem C5_no_attributes_counterexample :
    getDimensions (XNode.elem "svg" [] []) ≠ .ok none ∧
    getDimensions (XNode.elem "svg" [] []) = .error .typeError :=
  ⟨by decide, rfl⟩

theorem getD_map_mk (l : List (List Char)) (i : Nat) (h : i < l.length) :
    (l.map String.mk).getD i "" = String.mk (l.getD i []) := by
  rw [List.getD_eq_getElem?_getD, List.getD_eq_getElem?_getD, List.getElem?_map,
    List.getElem?_eq_getElem h]
  rfl

/-- C5 (amended): provided the first `svg` element carries at least one
attribute (otherwise the extractor crashes, see C4) and its width and height
are both falsy (missing or empty), the extractor returns tokens 2 and 3 of
the space-split `viewBox` value when the `viewBox` is present, non-empty and
yields at least 4 tokens, and returns none when the `viewBox` is absent,
empty, or yields fewer than 4 tokens. -/
theorem C5_viewBox_fallback_amended (doc svgTag : XNode)
    (hf : findSvg doc = some svgTag) (hne : svgTag.attrsOf ≠ [])
    (hw : jsFalsy (jsAttr svgTag.attrsOf "width") = true)
    (hh : jsFalsy (jsAttr svgTag.attrsOf "height") = true) :
    (∀ v, lookupA svgTag.attrsOf "viewBox" = some v → v ≠ "" →
        4 ≤ (jsSplitChar ' ' v.data).length →
        getDimensions doc = .ok (some
          (.s (String.mk ((jsSplitChar ' ' v.data).getD 2 [])),
           .s (String.mk ((jsSplitChar ' ' v.data).getD 3 []))))) ∧
    ((∀ v, lookupA svgTag.attrsOf "viewBox" = some v →
        v = "" ∨ (jsSplitChar ' ' v.data).length < 4) →
      getDimensions doc = .ok none) := by
  rw [getDimensions_of_findSvg doc svgTag hf]
  have hemp := isEmpty_false_of_ne_nil hne
  have hbase : dimsOfAttrs svgTag.attrsOf = .ok (viewBoxDims svgTag.attrsOf) := by
    simp [dimsOfAttrs, hemp, hw, hh]
  rw [hbase]
  constructor
  · intro v hv hv0 hlen
    have h2 : 2 < (jsSplitChar ' ' v.data).length := by omega
    have h3 : 3 < (jsSplitChar ' ' v.data).length := by omega
    simp [viewBoxDims, hv, hv0, Nat.not_lt.mpr hlen, getD_map_mk _ _ h2, getD_map_mk _ _ h3]
  · intro hall
    cases hvb : lookupA svgTag.attrsOf "viewBox" with
    | none => simp [viewBoxDims, hvb]
    | some v =>
        rcases hall v hvb with h0 | hshort
        · simp [viewBoxDims, hvb, h0]
        · by_cases h0 : v = ""
          · simp [viewBoxDims, hvb, h0]
          · simp [viewBoxDims, hvb, h0, hshort]

theorem C5_viewBox_fallback_amended_witness :
    getDimensions C5wdoc = .ok (some (.s "100", .s "50")) := by
  have h := (C5_viewBox_fallback_amended C5wdoc C5wdoc rfl (by decide) rfl rfl).1
    "0 0 100 50" rfl (by decide) (by decide)
  simpa using h

theorem filterFiles_eq_filter (files : List String) (ext : String) :
    filterFiles files ext = files.filter (fun f => extname f = ext) := by
  induction files with
  | nil => rfl
  | cons f rest ih =>
      by_cases h : extname f = ext <;> simp [filterFiles, h, ih]

/-- C7: processing selects exactly the candidate names whose `path.extname`
is the exact, case-sensitive string `.svg`, in their given order (the
selection is a sublist of the input); `a.svg.txt` (extension `.txt`) and
`a.SVG` (extension `.SVG`) are excluded. -/
theorem C7_svg_extension_filter (files : List String) :
    filterFiles files ".svg" = files.filter (fun f => extname f = ".svg") ∧
    List.Sublist (filterFiles files ".svg") files ∧
    (∀ f, f ∈ filterFiles files ".svg" ↔ f ∈ files ∧ extname f = ".svg") ∧
    filterFiles ["a.svg", "a.svg.txt", "a.SVG"] ".svg" = ["a.svg"] := by
  refine ⟨filterFiles_eq_filter files ".svg", ?_, ?_, rfl⟩
  · rw [filterFiles_eq_filter]
    exact List.filter_sublist files
  · intro f
    rw [filterFiles_eq_filter]
    simp [List.mem_filter]

theorem jsSplitChar_ne_nil (sep : Char) (l : List Char) : jsSplitChar sep l ≠ [] := by
  cases l with
  | nil => simp [jsSplitChar]
  | cons c rest =>
      by_cases h : c = sep
      · simp [jsSplitChar, h]
      · simp only [jsSplitChar, h, if_false]
        cases jsSplitChar sep rest <;> simp

theorem jsSplitChar_head (sep : Char) (l : List Char) :
    (jsSplitChar sep l).headD [] = l.takeWhile (fun c => c ≠ sep) := by
  induction l with
  | nil => rfl
  | cons c rest ih =>
      by_cases h : c = sep
      · simp [jsSplitChar, h, List.takeWhile]
      · cases hs : jsSplitChar sep rest with
        | nil => exact absurd hs (jsSplitChar_ne_nil sep rest)
        | cons t ts =>
            rw [hs] at ih
            simp only [List.headD_cons] at ih
            simp [jsSplitChar, h, hs, List.takeWhile, ih]

/-- C8: the base name of a processed file is the segment of its name before
the first `.` (the head of `name.split('.')`), and the selector prepends the
configured prefix exactly when that prefix is non-empty; in particular
`icon.min.svg` has base name `icon` and, with prefix `ui-`, selector
`ui-icon`. -/
theorem C8_selector_derivation (cssPre name : String) :
    fileBase name = String.mk (name.data.takeWhile (fun c => c ≠ '.')) ∧
    blockNameOf cssPre name = (if cssPre = "" then fileBase name else cssPre ++ fileBase name) ∧
    fileBase "icon.min.svg" = "icon" ∧
    blockNameOf "ui-" "icon.min.svg" = "ui-icon" := by
  refine ⟨?_, ?_, rfl, rfl⟩
  · rw [fileBase, jsSplitChar_head]
  · rw [blockNameOf]
    by_cases h : cssPre = ""
    · simp [h]
    · have hlen : cssPre.length ≠ 0 := by
        intro h0
        apply h
        cases cssPre with
        | mk l =>
            cases l with
            | nil => rfl
            | cons a as => simp [String.length] at h0
      simp [h, hlen]

example : stripComments "a<!-- c -->b".data = "ab".data := rfl

example : stripComments "a<!-- c".data = "a<!-- c".data := rfl

example : stripComments "<!-<!-- -->- x -->".data = "<!-- x -->".data := rfl

example : collapseTabs "a\t\t\tb".data = "a  b".data := rfl

example : collapseTabs "a\t\tb\tc".data = "a b c".data := rfl

example : cleanUpInputFile (.elem "svg" [] [.text "a"]) =
    "<?xml version=\"1.0\" encoding=\"UTF-8\" standalone=\"yes\"?><svg>a</svg>" := rfl

example : b64encode "Man" = "TWFu" := rfl

example : b64encode "Ma" = "TWE=" := rfl

example : b64encode "M" = "TQ==" := rfl

/-- C1: end-to-end, for one input file `square.svg` containing
`<svg width="10" height="10"><rect/></svg>`, with write-dimensions enabled
and an empty prefix, the produced stylesheet is exactly the two SCSS variable
lines and the `.square` rule joined by single newlines, where the base64
payload encodes the normalized single-line comment-free serialization of the
parsed document (shown concretely in the second conjunct). -/
theorem C1_end_to_end :
    processFiles ⟨"", true⟩ squareRead ["square.svg"] = .ok
      ("$square-width: 10;\n$square-height: 10;\n.square \x7b\n    background-image: url(data:image/svg+xml;base64,"
        ++ b64encode (cleanUpInputFile squareDoc) ++ ");\n\x7d\n") ∧
    cleanUpInputFile squareDoc =
      "<?xml version=\"1.0\" encoding=\"UTF-8\" standalone=\"yes\"?><svg width=\"10\" height=\"10\"><rect/></svg>" ∧
    b64encode "<?xml version=\"1.0\" encoding=\"UTF-8\" standalone=\"yes\"?><svg width=\"10\" height=\"10\"><rect/></svg>" =
      "PD94bWwgdmVyc2lvbj0iMS4wIiBlbmNvZGluZz0iVVRGLTgiIHN0YW5kYWxvbmU9InllcyI/Pjxzdmcgd2lkdGg9IjEwIiBoZWlnaHQ9IjEwIj48cmVjdC8+PC9zdmc+" :=
  ⟨rfl, rfl, rfl⟩

theorem processAll_error_of_bad (cfg : SvcConfig) (readDom : String → Option XNode)
    (name : String) (hbad : readDom name = none) :
    ∀ L : List String, name ∈ L → ∃ e, processAll cfg readDom L = .error e := by
  intro L hm
  induction L with
  | nil => cases hm
  | cons x rest ih =>
      rcases List.mem_cons.mp hm with hx | hx
      · subst hx
        exact ⟨.typeError, by simp [processAll, processFile, hbad]⟩
      · cases hpf : processFile cfg x (readDom x) with
        | error e => exact ⟨e, by simp [processAll, hpf]⟩
        | ok blocks =>
            obtain ⟨e, he⟩ := ih hx
            exact ⟨e, by simp [processAll, hpf, he]⟩

/-- C3: when some selected `.svg` input file has malformed XML (its parse
result is `null`), the whole run fails: the error propagates out of the
processing loop (no per-file recovery) and the run aborts before the output
file is written (`Except.error` means `fs.writeFile` is never reached).  Note
the failure is *observationally* fatal as the spec claims, though the parse
error itself is swallowed by `readXmlFile` (which returns `null`); what
aborts the run is the `TypeError` thrown when that `null` document is
dereferenced in the same iteration. -/
theorem C3_malformed_xml_fatal (cfg : SvcConfig) (readDom : String → Option XNode)
    (files : List String) (name : String)
    (hmem : name ∈ filterFiles files ".svg") (hbad : readDom name = none) :
    ∃ e, processFiles cfg readDom files = .error e := by
  obtain ⟨e, he⟩ := processAll_error_of_bad cfg readDom name hbad _ hmem
  exact ⟨e, by simp [processFiles, he]⟩

theorem C3_malformed_xml_fatal_witness :
    ∃ e, processFiles ⟨"", true⟩ (fun _ => none) ["notes.txt", "bad.svg"] = .error e :=
  C3_malformed_xml_fatal ⟨"", true⟩ (fun _ => none) ["notes.txt", "bad.svg"] "bad.svg"
    (by decide) rfl

/-- C9: when no candidate file has the `.svg` extension the run is not
fatal: the loop body runs zero times, `output` stays empty, and the output
file is still written with empty content (`console.error('No input files
found!')` only logs). -/
theorem C9_no_input_files_nonfatal (cfg : SvcConfig) (readDom : String → Option XNode)
    (files : List String) (h : filterFiles files ".svg" = []) :
    processFiles cfg readDom files = .ok "" := by
  simp [processFiles, h, processAll, String.intercalate]

theorem C9_no_input_files_nonfatal_witness :
    processFiles ⟨"ui-", true⟩ (fun _ => none) ["a.txt", "b.svg.bak", ".svg", "c.SVG"] = .ok "" :=
  C9_no_input_files_nonfatal ⟨"ui-", true⟩ (fun _ => none) ["a.txt", "b.svg.bak", ".svg", "c.SVG"] rfl

theorem collapseTabs_append (a z : List Char) (ha : lastIsTab a = false) :
    collapseTabs (a ++ z) = collapseTabs a ++ collapseTabs z := by
  match a with
  | [] => simp [collapseTabs]
  | [c] =>
      have hc : ¬ c = '\t' := by simpa [lastIsTab] using ha
      match z with
      | [] => simp [collapseTabs, hc]
      | z1 :: z2 => simp [collapseTabs, hc]
  | a1 :: a2 :: a3 =>
      have ha2 : lastIsTab (a2 :: a3) = false := by simpa [lastIsTab] using ha
      by_cases h1 : a1 = '\t'
      · by_cases h2 : a2 = '\t'
        · match a3 with
          | [] => simp [lastIsTab, h2] at ha2
          | b :: a4 =>
              have ha4 : lastIsTab (b :: a4) = false := by simpa [lastIsTab] using ha2
              have ih := collapseTabs_append (b :: a4) z ha4
              simp only [List.cons_append] at ih
              simp [collapseTabs, h1, h2, ih]
        · have ih := collapseTabs_append (a2 :: a3) z ha2
          simp only [List.cons_append] at ih
          simp [collapseTabs, h1, h2, ih]
      · have ih := collapseTabs_append (a2 :: a3) z ha2
        simp only [List.cons_append] at ih
        simp [collapseTabs, h1, ih]

theorem collapseTabs_tabs (b : List Char) (hb : headIsTab b = false) :
    ∀ n, collapseTabs (List.replicate n '\t' ++ b) =
      List.replicate ((n + 1) / 2) ' ' ++ collapseTabs b
  | 0 => by simp
  | 1 => by
      match b with
      | [] => simp [collapseTabs]
      | c :: b2 =>
          have hc : ¬ c = '\t' := by simpa [headIsTab] using hb
          simp [collapseTabs, hc]
  | n + 2 => by
      have harith : (n + 2 + 1) / 2 = (n + 1) / 2 + 1 := by omega
      have ih := collapseTabs_tabs b hb n
      simp [List.replicate_succ, collapseTabs, ih, harith]

theorem cleanUp_tab_run_split (doc : XNode) (a b : List Char) (n : Nat)
    (ha : lastIsTab a = false) (hb : headIsTab b = false)
    (hsplit : stripNewlines (stripComments (serializeChars doc)) =
      a ++ List.replicate n '\t' ++ b) :
    cleanUpChars doc = collapseTabs a ++ List.replicate ((n + 1) / 2) ' ' ++ collapseTabs b := by
  rw [cleanUpChars, hsplit, List.append_assoc, collapseTabs_append a _ ha,
    collapseTabs_tabs b hb n, ← List.append_assoc]

/-- C10: in the string reaching the tab-replacement step of the normalizer
(the serialized document with comments stripped and newlines removed), every
maximal run of `n ≥ 1` consecutive tabs is replaced by exactly `⌈n/2⌉`
spaces — the regex `(\t\t|\t)` greedily takes tabs two at a time — which
fully determines the behavior for runs of three or more tabs. -/
theorem C10_tab_runs (doc : XNode) (a b : List Char) (n : Nat) (_hn : 0 < n)
    (ha : lastIsTab a = false) (hb : headIsTab b = false)
    (hsplit : stripNewlines (stripComments (serializeChars doc)) =
      a ++ List.replicate n '\t' ++ b) :
    cleanUpChars doc = collapseTabs a ++ List.replicate ((n + 1) / 2) ' ' ++ collapseTabs b :=
  cleanUp_tab_run_split doc a b n ha hb hsplit

theorem C10_tab_runs_witness :
    cleanUpChars C10wdoc = collapseTabs C10wa ++ List.replicate 2 ' ' ++ collapseTabs C10wb :=
  C10_tab_runs C10wdoc C10wa C10wb 3 (by decide) rfl rfl rfl

theorem ltOkB_nil : ltOkB [] = true := by
  rw [ltOkB.eq_def]

theorem ltOkB_cons_ne (c : Char) (w : List Char) (hc : ¬ c = '<') :
    ltOkB (c :: w) = ltOkB w := by
  rw [ltOkB.eq_def]
  simp [hc]

theorem ltOkB_lt_cons (d : Char) (w : List Char)
    (hd1 : ¬ d = '!') (hd2 : ¬ d = '\n') (hd3 : ¬ d = '\r') :
    ltOkB ('<' :: d :: w) = ltOkB (d :: w) := by
  rw [ltOkB.eq_def]
  simp [hd1, hd2, hd3]

theorem ltOkB_cdata_cons (w : List Char) : ltOkB ('<' :: '!' :: '[' :: w) = ltOkB w := by
  simp [ltOkB]

theorem ltOkB_lt_bang (e : Char) (w : List Char) (he : ¬ e = '[') :
    ltOkB ('<' :: '!' :: e :: w) = false := by
  simp [ltOkB, he]

theorem ltOkB_tail (c : Char) (rest : List Char) (h : ltOkB (c :: rest) = true) :
    ltOkB rest = true := by
  by_cases hc : c = '<'
  · subst hc
    match rest with
    | [] => simp [ltOkB] at h
    | d :: rest2 =>
        by_cases hd : d = '!'
        · subst hd
          match rest2 with
          | [] => simp [ltOkB] at h
          | e :: rest3 =>
              by_cases he : e = '['
              · subst he
                rw [ltOkB_cdata_cons] at h
                rw [ltOkB_cons_ne '!' _ (by decide), ltOkB_cons_ne '[' _ (by decide)]
                exact h
              · rw [ltOkB_lt_bang e rest3 he] at h
                exact absurd h (by simp)
        · by_cases hn : d = '\n'
          · subst hn; rw [ltOkB.eq_def] at h; simp [hd] at h
          · by_cases hrr : d = '\r'
            · subst hrr; rw [ltOkB.eq_def] at h; simp [hd, hn] at h
            · rw [ltOkB_lt_cons d rest2 hd hn hrr] at h; exact h
  · rw [ltOkB_cons_ne c rest hc] at h; exact h

theorem ltOkB_append_noLt (l rest : List Char) (hl : l.all (fun c => c ≠ '<') = true)
    (hr : ltOkB rest = true) : ltOkB (l ++ rest) = true := by
  induction l with
  | nil => simpa using hr
  | cons c l2 ih =>
      simp only [List.all_cons, Bool.and_eq_true] at hl
      have hc : ¬ c = '<' := by simpa using hl.1
      rw [List.cons_append, ltOkB_cons_ne c _ hc]
      exact ih hl.2

theorem stripNewlines_cons (c : Char) (w : List Char) :
    stripNewlines (c :: w) =
      if c = '\n' ∨ c = '\r' then stripNewlines w else c :: stripNewlines w := by
  by_cases h1 : c = '\n'
  · simp [stripNewlines, List.filter_cons, h1]
  · by_cases h2 : c = '\r' <;> simp [stripNewlines, List.filter_cons, h1, h2]

theorem collapseTabs_cons_ne (c : Char) (w : List Char) (hc : ¬ c = '\t') :
    collapseTabs (c :: w) = c :: collapseTabs w := by
  match w with
  | [] => simp [collapseTabs, hc]
  | w1 :: w2 => simp [collapseTabs, hc]

theorem collapseTabs_tab_head (w : List Char) :
    ∃ w2, collapseTabs ('\t' :: w) = ' ' :: w2 := by
  match w with
  | [] => exact ⟨[], rfl⟩
  | w1 :: w2 =>
      by_cases h1 : w1 = '\t'
      · exact ⟨collapseTabs w2, by simp [collapseTabs, h1]⟩
      · exact ⟨collapseTabs (w1 :: w2), by simp [collapseTabs, h1]⟩

theorem ltOkB_stripNewlines (l : List Char) (h : ltOkB l = true) :
    ltOkB (stripNewlines l) = true := by
  match l with
  | [] => simpa [stripNewlines] using h
  | c :: rest =>
      by_cases hc : c = '<'
      · subst hc
        match rest with
        | [] => simp [ltOkB] at h
        | d :: rest2 =>
            by_cases hd : d = '!'
            · subst hd
              match rest2 with
              | [] => simp [ltOkB] at h
              | e :: rest3 =>
                  by_cases he : e = '['
                  · subst he
                    rw [ltOkB_cdata_cons] at h
                    have ih := ltOkB_stripNewlines rest3 h
                    rw [stripNewlines_cons, if_neg (by decide),
                      stripNewlines_cons, if_neg (by decide),
                      stripNewlines_cons, if_neg (by decide), ltOkB_cdata_cons]
                    exact ih
                  · rw [ltOkB_lt_bang e rest3 he] at h
                    exact absurd h (by simp)
            · by_cases hn : d = '\n'
              · subst hn; rw [ltOkB.eq_def] at h; simp [hd] at h
              · by_cases hrr : d = '\r'
                · subst hrr; rw [ltOkB.eq_def] at h; simp [hd, hn] at h
                · rw [ltOkB_lt_cons d rest2 hd hn hrr] at h
                  have ih := ltOkB_stripNewlines (d :: rest2) h
                  rw [stripNewlines_cons, if_neg (by decide)]
                  rw [stripNewlines_cons, if_neg (by simp [hn, hrr])] at ih ⊢
                  rw [ltOkB_lt_cons d _ hd hn hrr]
                  exact ih
      · have h2 := ltOkB_tail c rest h
        have ih := ltOkB_stripNewlines rest h2
        rw [stripNewlines_cons]
        by_cases hcc : c = '\n' ∨ c = '\r'
        · rw [if_pos hcc]; exact ih
        · rw [if_neg hcc, ltOkB_cons_ne c _ hc]; exact ih

theorem ltOkB_collapseTabs (l : List Char) (h : ltOkB l = true) :
    ltOkB (collapseTabs l) = true := by
  match l with
  | [] => simpa [collapseTabs] using h
  | c :: rest =>
      by_cases hc : c = '<'
      · subst hc
        match rest with
        | [] => simp [ltOkB] at h
        | d :: rest2 =>
            by_cases hd : d = '!'
            · subst hd
              match rest2 with
              | [] => simp [ltOkB] at h
              | e :: rest3 =>
                  by_cases he : e = '['
                  · subst he
                    rw [ltOkB_cdata_cons] at h
                    have ih := ltOkB_collapseTabs rest3 h
                    rw [collapseTabs_cons_ne _ _ (by decide),
                      collapseTabs_cons_ne _ _ (by decide),
                      collapseTabs_cons_ne _ _ (by decide), ltOkB_cdata_cons]
                    exact ih
                  · rw [ltOkB_lt_bang e rest3 he] at h
                    exact absurd h (by simp)
            · by_cases hn : d = '\n'
              · subst hn; rw [ltOkB.eq_def] at h; simp [hd] at h
              · by_cases hrr : d = '\r'
                · subst hrr; rw [ltOkB.eq_def] at h; simp [hd, hn] at h
                · rw [ltOkB_lt_cons d rest2 hd hn hrr] at h
                  have ih := ltOkB_collapseTabs (d :: rest2) h
                  rw [collapseTabs_cons_ne '<' _ (by decide)]
                  by_cases ht : d = '\t'
                  · subst ht
                    obtain ⟨w2, hw2⟩ := collapseTabs_tab_head rest2
                    rw [hw2]
                    rw [hw2] at ih
                    rw [ltOkB_lt_cons ' ' _ (by decide) (by decide) (by decide)]
                    exact ih
                  · rw [collapseTabs_cons_ne d _ ht] at ih ⊢
                    rw [ltOkB_lt_cons d _ hd hn hrr]
                    exact ih
      · have h2 := ltOkB_tail c rest h
        by_cases ht : c = '\t'
        · subst ht
          match rest with
          | [] =>
              rw [show collapseTabs ['\t'] = [' '] by simp [collapseTabs],
                ltOkB_cons_ne ' ' [] (by decide)]
              exact ltOkB_nil
          | r1 :: rest2 =>
              by_cases h1 : r1 = '\t'
              · subst h1
                have h3 := ltOkB_tail _ _ h2
                have ih := ltOkB_collapseTabs rest2 h3
                rw [show collapseTabs ('\t' :: '\t' :: rest2) = ' ' :: collapseTabs rest2 by
                  simp [collapseTabs]]
                rw [ltOkB_cons_ne ' ' _ (by decide)]
                exact ih
              · have ih := ltOkB_collapseTabs (r1 :: rest2) h2
                rw [show collapseTabs ('\t' :: r1 :: rest2) = ' ' :: collapseTabs (r1 :: rest2) by
                  simp [collapseTabs, h1]]
                rw [ltOkB_cons_ne ' ' _ (by decide)]
                exact ih
        · have ih := ltOkB_collapseTabs rest h2
          rw [collapseTabs_cons_ne c _ ht, ltOkB_cons_ne c _ hc]
          exact ih

theorem stripCommentsFuel_of_ltOk (fuel : Nat) :
    ∀ l, ltOkB l = true → stripCommentsFuel fuel l = l := by
  induction fuel with
  | zero => intro l h; cases l <;> rfl
  | succ fuel ih =>
      intro l h
      match l with
      | [] => rfl
      | c :: rest =>
          have hno : ¬ (c = '<' ∧ rest.take 3 = ['!', '-', '-']) := by
            rintro ⟨hc, htake⟩
            subst hc
            match rest with
            | [] => simp at htake
            | [a] => simp at htake
            | [a, b] => simp at htake
            | a :: b :: d :: r4 =>
                simp [List.take] at htake
                obtain ⟨ha, hb, hd⟩ := htake
                subst ha; subst hb; subst hd
                rw [ltOkB_lt_bang '-' _ (by decide)] at h
                exact absurd h (by simp)
          simp only [stripCommentsFuel, if_neg hno]
          rw [ih rest (ltOkB_tail c rest h)]

theorem stripComments_of_ltOk (l : List Char) (h : ltOkB l = true) :
    stripComments l = l :=
  stripCommentsFuel_of_ltOk l.length l h

theorem hasOpenComment_eq_false_of_ltOk (l : List Char) (h : ltOkB l = true) :
    hasOpenComment l = false := by
  match l with
  | [] => rfl
  | c :: rest =>
      have hno : ¬ (c = '<' ∧ rest.take 3 = ['!', '-', '-']) := by
        rintro ⟨hc, htake⟩
        subst hc
        match rest with
        | [] => simp at htake
        | [a] => simp at htake
        | [a, b] => simp at htake
        | a :: b :: d :: r4 =>
            simp [List.take] at htake
            obtain ⟨ha, hb, hd⟩ := htake
            subst ha; subst hb; subst hd
            rw [ltOkB_lt_bang '-' _ (by decide)] at h
            exact absurd h (by simp)
      simp only [hasOpenComment, if_neg hno]
      exact hasOpenComment_eq_false_of_ltOk rest (ltOkB_tail c rest h)

theorem nameOk_noLt (s : String) (h : nameOk s = true) :
    s.data.all (fun c => c ≠ '<') = true := by
  simp only [nameOk, Bool.and_eq_true, List.all_eq_true] at h
  simp only [List.all_eq_true]
  intro c hc
  have := h.2 c hc
  simp only [Bool.and_eq_true] at this
  exact this.1.1.1

theorem nameOk_shape (s : String) (h : nameOk s = true) :
    ∃ d ds, s.data = d :: ds ∧ (¬ d = '!') ∧ (¬ d = '\n') ∧ (¬ d = '\r') := by
  simp only [nameOk, Bool.and_eq_true, List.all_eq_true] at h
  obtain ⟨hne, hall⟩ := h
  cases hs : s.data with
  | nil =>
      exfalso
      apply (by simpa using hne : ¬ s = "")
      cases s with
      | mk l => cases hs; rfl
  | cons d ds =>
      have hd := hall d (by rw [hs]; exact List.mem_cons_self d ds)
      simp only [Bool.and_eq_true] at hd
      exact ⟨d, ds, rfl, by simpa using hd.1.1.2, by simpa using hd.1.2, by simpa using hd.2⟩

theorem attEscape_noLt (l : List Char) : (attEscape l).all (fun c => c ≠ '<') = true := by
  induction l with
  | nil => rfl
  | cons c rest ih =>
      simp only [attEscape, List.flatMap_cons, List.all_append] at *
      rw [ih]
      by_cases h1 : c = '&'
      · simp [h1]
      · by_cases h2 : c = '<'
        · simp [h1, h2]
        · by_cases h3 : c = '"' <;> simp [h1, h2, h3]

theorem renderAttrs_noLt (attrs : List (String × String))
    (h : attrs.all (fun kv => nameOk kv.1) = true) :
    (renderAttrs attrs).all (fun c => c ≠ '<') = true := by
  induction attrs with
  | nil => rfl
  | cons kv rest ih =>
      simp only [List.all_cons, Bool.and_eq_true] at h
      have hk := nameOk_noLt kv.1 h.1
      have hv := attEscape_noLt kv.2.data
      simp only [renderAttrs, List.all_cons, List.all_append, Bool.and_eq_true]
      exact ⟨by decide, hk, by decide, by decide, hv, by decide, ih h.2⟩

theorem ltOkB_openTag (d : Char) (ds X : List Char)
    (hd1 : ¬ d = '!') (hd2 : ¬ d = '\n') (hd3 : ¬ d = '\r')
    (hds : (d :: ds).all (fun c => c ≠ '<') = true)
    (hX : ltOkB X = true) :
    ltOkB ('<' :: ((d :: ds) ++ X)) = true := by
  rw [List.cons_append, ltOkB_lt_cons d _ hd1 hd2 hd3]
  exact ltOkB_append_noLt (d :: ds) X hds hX

theorem ltOkB_closeTag (nm rest : List Char) (hnm : nm.all (fun c => c ≠ '<') = true)
    (hr : ltOkB rest = true) :
    ltOkB ('<' :: '/' :: (nm ++ ('>' :: rest))) = true := by
  rw [ltOkB_lt_cons '/' _ (by decide) (by decide) (by decide),
    ltOkB_cons_ne '/' _ (by decide)]
  refine ltOkB_append_noLt nm _ hnm ?_
  rw [ltOkB_cons_ne '>' _ (by decide)]
  exact hr

theorem escCDATA_cons (c : Char) (rest : List Char)
    (h : ¬ (c = ']' ∧ rest.take 2 = [']', '>'])) :
    escCDATA (c :: rest) = c :: escCDATA rest := by
  rw [escCDATA.eq_def]
  split
  · rename_i r heq
    simp only [List.cons.injEq] at heq
    exact absurd ⟨heq.1, by rw [heq.2]; rfl⟩ h
  · rename_i c2 r2 hno heq
    simp only [List.cons.injEq] at heq
    rw [heq.1, heq.2]
  · rename_i heq
    simp at heq

theorem ltOkB_escCDATA (l tail2 : List Char) (hl : l.all (fun c => c ≠ '<') = true)
    (ht : ltOkB tail2 = true) : ltOkB (escCDATA l ++ tail2) = true := by
  match l with
  | [] => simpa [escCDATA] using ht
  | c :: rest =>
      by_cases hrepl : c = ']' ∧ rest.take 2 = [']', '>']
      · obtain ⟨hc, htake⟩ := hrepl
        subst hc
        obtain ⟨r, hr⟩ : ∃ r, rest = ']' :: '>' :: r := by
          match rest with
          | [] => simp at htake
          | [a] => simp at htake
          | a :: b :: r =>
              simp [List.take] at htake
              exact ⟨r, by rw [htake.1, htake.2]⟩
        subst hr
        have hrest : r.all (fun c => c ≠ '<') = true := by
          simp only [List.all_cons, Bool.and_eq_true] at hl
          exact hl.2.2.2
        have ih := ltOkB_escCDATA r tail2 hrest ht
        rw [show escCDATA (']' :: ']' :: '>' :: r) =
            "]]]]><![CDATA[>".data ++ escCDATA r from rfl,
          List.append_assoc,
          show ("]]]]><![CDATA[>".data ++ (escCDATA r ++ tail2)) =
            "]]]]>".data ++ ('<' :: '!' :: '[' :: ("CDATA[>".data ++ (escCDATA r ++ tail2)))
            from rfl]
        refine ltOkB_append_noLt _ _ (by decide) ?_
        rw [ltOkB_cdata_cons]
        exact ltOkB_append_noLt _ _ (by decide) ih
      · have hc : ¬ c = '<' := by
          simp only [List.all_cons, Bool.and_eq_true] at hl
          simpa using hl.1
        have hrest : rest.all (fun c => c ≠ '<') = true := by
          simp only [List.all_cons, Bool.and_eq_true] at hl
          exact hl.2
        rw [escCDATA_cons c rest hrepl, List.cons_append, ltOkB_cons_ne c _ hc]
        exact ltOkB_escCDATA rest tail2 hrest ht

mutual

theorem ltOkB_renderNode (x : XNode) (rest : List Char)
    (hw : wfNode x = true) (hr : ltOkB rest = true) :
    ltOkB (renderNode x ++ rest) = true := by
  match x with
  | .elem n attrs children =>
      simp only [wfNode, Bool.and_eq_true] at hw
      obtain ⟨⟨hn, hattrs⟩, hch⟩ := hw
      obtain ⟨d, ds, hdata, hd1, hd2, hd3⟩ := nameOk_shape n hn
      have hds : ((d :: ds).all (fun c => c ≠ '<')) = true := by
        rw [← hdata]; exact nameOk_noLt n hn
      match children with
      | [] =>
          rw [show renderNode (.elem n attrs []) =
            '<' :: (n.data ++ (renderAttrs attrs ++ ['/', '>'])) from by simp [renderNode]]
          rw [hdata]
          simp only [List.cons_append, List.append_assoc, List.nil_append]
          have hX : ltOkB (renderAttrs attrs ++ ('/' :: '>' :: rest)) = true := by
            refine ltOkB_append_noLt _ _ (renderAttrs_noLt attrs hattrs) ?_
            rw [ltOkB_cons_ne '/' _ (by decide), ltOkB_cons_ne '>' _ (by decide)]
            exact hr
          exact ltOkB_openTag d ds _ hd1 hd2 hd3 hds hX
      | ch :: chs =>
          rw [show renderNode (.elem n attrs (ch :: chs)) =
            '<' :: (n.data ++ (renderAttrs attrs ++
              ('>' :: (renderList (ch :: chs) ++ ('<' :: '/' :: (n.data ++ ['>']))))))
            from by simp [renderNode]]
          rw [hdata]
          simp only [List.cons_append, List.append_assoc, List.nil_append]
          have hclose : ltOkB ('<' :: '/' :: ((d :: ds) ++ ('>' :: rest))) = true :=
            ltOkB_closeTag (d :: ds) rest hds hr
          have hlist := ltOkB_renderList (ch :: chs) _ hch hclose
          have hgt : ltOkB ('>' :: (renderList (ch :: chs) ++
              ('<' :: '/' :: ((d :: ds) ++ ('>' :: rest))))) = true := by
            rw [ltOkB_cons_ne '>' _ (by decide)]
            exact hlist
          have hattr := ltOkB_append_noLt _ _ (renderAttrs_noLt attrs hattrs) hgt
          exact ltOkB_openTag d ds _ hd1 hd2 hd3 hds hattr
  | .text s =>
      simp only [wfNode] at hw
      by_cases hcd : needsCDATA s = true
      · rw [show renderNode (.text s) =
          "<![CDATA[".data ++ (escCDATA s.data ++ "]]>".data) from by simp [renderNode, hcd]]
        have h1 : ltOkB ("]]>".data ++ rest) = true :=
          ltOkB_append_noLt _ _ (by decide) hr
        have h2 : ltOkB (escCDATA s.data ++ ("]]>".data ++ rest)) = true :=
          ltOkB_escCDATA s.data _ hw h1
        have h3 : ltOkB ("CDATA[".data ++ (escCDATA s.data ++ ("]]>".data ++ rest))) = true :=
          ltOkB_append_noLt _ _ (by decide) h2
        have h4 : ltOkB ('<' :: '!' :: '[' ::
            ("CDATA[".data ++ (escCDATA s.data ++ ("]]>".data ++ rest)))) = true := by
          rw [ltOkB_cdata_cons]
          exact h3
        simp only [List.append_assoc]
        exact h4
      · rw [show renderNode (.text s) = s.data from by simp [renderNode, hcd]]
        exact ltOkB_append_noLt s.data rest hw hr

theorem ltOkB_renderList (xs : List XNode) (rest : List Char)
    (hw : wfList xs = true) (hr : ltOkB rest = true) :
    ltOkB (renderList xs ++ rest) = true := by
  match xs with
  | [] => simpa [renderList] using hr
  | x :: xs2 =>
      simp only [wfList, Bool.and_eq_true] at hw
      have h2 := ltOkB_renderList xs2 rest hw.2 hr
      have h1 := ltOkB_renderNode x (renderList xs2 ++ rest) hw.1 h2
      rw [show renderList (x :: xs2) = renderNode x ++ renderList xs2 from rfl,
        List.append_assoc]
      exact h1

end

theorem ltOkB_serialize (doc : XNode) (hw : wfNode doc = true) :
    ltOkB (serializeChars doc) = true := by
  have h1 : ltOkB (renderNode doc ++ []) = true := ltOkB_renderNode doc [] hw ltOkB_nil
  rw [List.append_nil] at h1
  rw [show serializeChars doc =
    '<' :: '?' :: ("xml version=\"1.0\" encoding=\"UTF-8\" standalone=\"yes\"?>".data
      ++ renderNode doc) from rfl]
  rw [ltOkB_lt_cons '?' _ (by decide) (by decide) (by decide),
    ltOkB_cons_ne '?' _ (by decide)]
  exact ltOkB_append_noLt _ _ (by decide) h1

theorem mem_collapseTabs (l : List Char) (c : Char) (h : c ∈ collapseTabs l) :
    c ∈ l ∨ c = ' ' := by
  match l with
  | [] => simp [collapseTabs] at h
  | [a] =>
      by_cases ha : a = '\t'
      · simp [collapseTabs, ha] at h
        exact Or.inr h
      · simp [collapseTabs, ha] at h
        simp [h]
  | a1 :: a2 :: a3 =>
      by_cases h1 : a1 = '\t'
      · by_cases h2 : a2 = '\t'
        · simp only [collapseTabs, if_pos h1, if_pos h2, List.mem_cons] at h
          rcases h with h | h
          · exact Or.inr h
          · rcases mem_collapseTabs a3 c h with h3 | h3
            · exact Or.inl (by simp [h3])
            · exact Or.inr h3
        · simp only [collapseTabs, if_pos h1, if_neg h2, List.mem_cons] at h
          rcases h with h | h
          · exact Or.inr h
          · rcases mem_collapseTabs (a2 :: a3) c h with h3 | h3
            · exact Or.inl (by simp [List.mem_cons] at h3 ⊢; tauto)
            · exact Or.inr h3
      · simp only [collapseTabs, if_neg h1, List.mem_cons] at h
        rcases h with h | h
        · exact Or.inl (by simp [h])
        · rcases mem_collapseTabs (a2 :: a3) c h with h3 | h3
          · exact Or.inl (by simp [List.mem_cons] at h3 ⊢; tauto)
          · exact Or.inr h3

/-- C6 (amended): for every parsed document the normalizer's output contains
no newline or carriage-return characters (a single-line string), and every
maximal run of one or two consecutive tab characters remaining after the
newline removal is replaced by a single space; moreover, for every
well-formed document (XML-name-like element and attribute names, text
content without `<`) the output contains no XML comments — not even a
comment opener `<!--`.  (Without the well-formedness condition on text,
comment-shaped output can survive inside CDATA, see the counterexample.) -/
theorem C6_normalizer_output_amended (doc : XNode) :
    ((∀ c ∈ cleanUpChars doc, ¬ (c = '\n' ∨ c = '\r')) ∧
      (∀ a b n, (n = 1 ∨ n = 2) → lastIsTab a = false → headIsTab b = false →
        stripNewlines (stripComments (serializeChars doc)) =
          a ++ List.replicate n '\t' ++ b →
        cleanUpChars doc = collapseTabs a ++ [' '] ++ collapseTabs b)) ∧
    (wfNode doc = true → hasOpenComment (cleanUpChars doc) = false) := by
  refine ⟨⟨?_, ?_⟩, ?_⟩
  · intro c hc
    rcases mem_collapseTabs _ c hc with hmem | hsp
    · have := List.mem_filter.mp hmem
      simp only [Bool.and_eq_true, decide_eq_true_eq] at this
      rintro (h | h) <;> [exact this.2.1 h; exact this.2.2 h]
    · subst hsp
      rintro (h | h) <;> simp at h
  · intro a b n hn ha hb hsplit
    have h12 : (n + 1) / 2 = 1 := by rcases hn with h | h <;> subst h <;> rfl
    have := cleanUp_tab_run_split doc a b n ha hb hsplit
    rw [this, h12]
    rfl
  · intro hw
    have h0 := ltOkB_serialize doc hw
    rw [cleanUpChars, stripComments_of_ltOk _ h0]
    exact hasOpenComment_eq_false_of_ltOk _
      (ltOkB_collapseTabs _ (ltOkB_stripNewlines _ h0))

/-- C6 counterexample: the normalizer's output for `C6cex` *does* contain an
XML comment (`<!-- x -->` inside the CDATA section), refuting "the output
contains no XML comments" as universally stated; the second conjunct shows
the full output concretely. -/
theorem C6_comment_in_output_counterexample :
    containsComment (cleanUpChars C6cex) = true ∧
    cleanUpInputFile C6cex =
      "<?xml version=\"1.0\" encoding=\"UTF-8\" standalone=\"yes\"?><svg><![CDATA[<!-- x -->]]></svg>" :=
  ⟨rfl, rfl⟩

theorem C6_normalizer_output_amended_witness :
    cleanUpChars C6wdoc = collapseTabs C6wa ++ [' '] ++ collapseTabs C6wb ∧
    hasOpenComment (cleanUpChars C6wdoc) = false :=
  ⟨(C6_normalizer_output_amended C6wdoc).1.2 C6wa C6wb 2 (Or.inr rfl) rfl rfl rfl,
   (C6_normalizer_output_amended C6wdoc).2 rfl⟩
